import Mathlib

/-!
# Verification of the CoDiPack tape core

A shallow embedding of the recording/replay subsystem of CoDiPack:
the primal value base tape (`primalValueBaseTape.hpp`), the adjoint
interface (`AdjointInterfaceImplBase`), the dense Jacobian block and the
preaccumulation helper, together with proofs about their behaviour.

The C++ `Real`/`Gradient` scalar type is modelled by `ℚ` (exact arithmetic)
except where non-finite values matter, in which case the carrier `PReal`
(a rational extended with a non-finite element) is used.  Machine vectors
become Lean lists; the growable adjoint vector of the preaccumulation
helper is modelled as a total map `Nat → ℚ` because the tape grows it on
demand (`checkAdjointSize`) so that every identifier access is defined.
-/

namespace CodiSpec

/-! ## Global configuration (`config.h`) -/

namespace Config

/-- The source entity `Config::MaxArgumentSize` : maximal number of operands of one statement. -/
def MaxArgumentSize : Nat := 255

/-- The source entity `Config::StatementInputTag`. -/
def StatementInputTag : Nat := 255

/-- The source entity `Config::IgnoreInvalidJacobies` : default `false` (propagate). -/
def IgnoreInvalidJacobies : Bool := false

/-- The source entity `Config::SkipZeroAdjointEvaluation` : default `true`. -/
def SkipZeroAdjointEvaluation : Bool := true

/-- The source entity `Config::CheckZeroIndex` : default `true`. -/
def CheckZeroIndex : Bool := true

/-- The source entity `Config::CheckTapeActivity` : default `true`. -/
def CheckTapeActivity : Bool := true

end Config

/-! ## Adjoint updates (`AdjointInterfaceImplBase`, `IncrementReversalLogic`) -/

/-- The source entity `AdjointInterfaceImplBase::updateJacobiAdjoint`:
`adjointVector[index] += jacobi * lhs`. -/
def updateJacobiAdjoint (adj : List ℚ) (index : Nat) (jacobi lhs : ℚ) : List ℚ :=
  adj.set index (adj.getD index 0 + jacobi * lhs)

/-- Reverse replay of one recorded statement: the output adjoint is read
once (`setLhsAdjoint`), then every stored (coefficient, input-identifier)
pair performs `updateJacobiAdjoint`. -/
def evalStatementReverse (adj : List ℚ) (out : Nat) (pairs : List (ℚ × Nat)) : List ℚ :=
  let lhs := adj.getD out 0
  pairs.foldl (fun a p => updateJacobiAdjoint a p.2 p.1 lhs) adj

/-! ## Value carrier with non-finite elements (for `isTotalFinite` checks)

`double` values that are NaN or infinite are modelled by the single
element `PReal.nonfin`; any arithmetic involving it stays non-finite
(overflow of finite arithmetic is not modelled). -/

inductive PReal where
  | fin (q : ℚ)
  | nonfin
deriving DecidableEq

/-- The source entity `codi::isTotalFinite` on the model carrier. -/
def PReal.isTotalFinite : PReal → Bool
  | .fin _ => true
  | .nonfin => false

def PReal.add : PReal → PReal → PReal
  | .fin a, .fin b => .fin (a + b)
  | _, _ => .nonfin

def PReal.mul : PReal → PReal → PReal
  | .fin a, .fin b => .fin (a * b)
  | _, _ => .nonfin

instance : Add PReal := ⟨PReal.add⟩

instance : Mul PReal := ⟨PReal.mul⟩

instance : OfNat PReal 0 := ⟨.fin 0⟩

/-- The source entity `IncrementReversalLogic::handleJacobianOnActive`:
`CODI_ENABLE_CHECK(Config::IgnoreInvalidJacobies, isTotalFinite(jacobian))`
guards `adjointVector[node.getIdentifier()] += jacobian * lhsAdjoint`.
The check body runs iff the option is disabled or the condition holds. -/
def handleJacobianOnActiveReverse (ignoreInvalid : Bool) (adj : List PReal)
    (id : Nat) (jacobian lhsAdjoint : PReal) : List PReal :=
  if !ignoreInvalid || jacobian.isTotalFinite then
    adj.set id (adj.getD id 0 + jacobian * lhsAdjoint)
  else
    adj

/-- Reverse increment over the stored pairs of one statement
(`IncrementReversalLogic` applied to each active leaf). -/
def incrementReversalStatement (ignoreInvalid : Bool) (adj : List PReal)
    (lhsAdjoint : PReal) (pairs : List (PReal × Nat)) : List PReal :=
  pairs.foldl (fun a p => handleJacobianOnActiveReverse ignoreInvalid a p.2 p.1 lhsAdjoint) adj

/-- The source entity `IncrementForwardLogic::handleJacobianOnActive`:
`lhsTangent += jacobian * adjointVector[node.getIdentifier()]` under the
same `IgnoreInvalidJacobies` guard. -/
def handleJacobianOnActiveForward (ignoreInvalid : Bool) (adjointVector : List PReal)
    (id : Nat) (jacobian lhsTangent : PReal) : PReal :=
  if !ignoreInvalid || jacobian.isTotalFinite then
    lhsTangent + jacobian * adjointVector.getD id 0
  else
    lhsTangent

/-- Forward increment over the stored pairs of one statement. -/
def incrementForwardStatement (ignoreInvalid : Bool) (adjointVector : List PReal)
    (lhsTangent : PReal) (pairs : List (PReal × Nat)) : PReal :=
  pairs.foldl (fun t p => handleJacobianOnActiveForward ignoreInvalid adjointVector p.2 p.1 t)
    lhsTangent

/-! ## Dense Jacobian block (`Jacobian` in `jacobian.hpp`) -/

/-- The source entity `codi::Jacobian<Vec>`: an `m` by `n` matrix over a flat storage vector
of size `n * m`. -/
structure Jacobian where
  m : Nat
  n : Nat
  values : List ℚ
deriving DecidableEq

/-- The source entity `Jacobian(m, n)` : storage `values(n * m)`. -/
def Jacobian.init (m n : Nat) : Jacobian :=
  ⟨m, n, List.replicate (n * m) 0⟩

/-- The source entity `Jacobian::computeIndex(i, j) = i * n + j`. -/
def Jacobian.computeIndex (jac : Jacobian) (i j : Nat) : Nat :=
  i * jac.n + j

/-- The read accessor `operator()(i, j) const`: `values.data()[computeIndex(i,j)]`. -/
def Jacobian.get (jac : Jacobian) (i j : Nat) : ℚ :=
  jac.values.getD (jac.computeIndex i j) 0

/-- The write accessor `operator()(i, j)`, modelled as a functional update
of the flat storage at `computeIndex(i, j)`. -/
def Jacobian.write (jac : Jacobian) (i j : Nat) (v : ℚ) : Jacobian :=
  { jac with values := jac.values.set (jac.computeIndex i j) v }

/-! ## Gradient access (`PrimalValueBaseTape::gradient`) -/

/-- The `const` overload of `gradient`:
`if(identifier > adjoints.size()) return adjoints[0]; else return adjoints[identifier];`.
The element access is modelled with `List.get?` so that an out-of-bounds
read is visible as `none`. -/
def gradientConst (adjoints : List ℚ) (identifier : Nat) : Option ℚ :=
  if identifier > adjoints.length then adjoints[0]? else adjoints[identifier]?

/-- The source entity `checkAdjointSize` + `resizeAdjointsVector`: grow so that
`largestAssignedIndex` is covered when `identifier >= adjoints.size()`. -/
def checkAdjointSize (adjoints : List ℚ) (largestAssignedIndex identifier : Nat) : List ℚ :=
  if identifier ≥ adjoints.length then
    adjoints ++ List.replicate (largestAssignedIndex + 1 - adjoints.length) 0
  else
    adjoints

/-- The non-`const` overload of `gradient`: grow, then access. -/
def gradientMut (adjoints : List ℚ) (largestAssignedIndex identifier : Nat) : Option ℚ :=
  (checkAdjointSize adjoints largestAssignedIndex identifier)[identifier]?

/-! ## Reverse statement evaluation frame (`statementEvaluateReverseFull`) -/

/-- The source entity `codi::isTotalZero` on the scalar gradient model. -/
def isTotalZero (g : ℚ) : Bool := decide (g = 0)

/-- The traversal state of the reverse replay of one statement: the
positions into the constant, passive and rhs-identifier layers and the
primal/adjoint vectors. -/
structure RevState where
  constantPos : Nat
  passivePos : Nat
  rhsPos : Nat
  primal : List ℚ
  adj : List ℚ
deriving DecidableEq

/-- The loop
`for(curPos = 0; curPos < numberOfPassiveArguments; ++curPos) primalVector[curPos] = passiveValues[curPassivePos + curPos]`. -/
def writePassivesToPrimal (primal passiveValues : List ℚ) (passivePos numPassive : Nat) :
    List ℚ :=
  (List.range numPassive).foldl
    (fun p curPos => p.set curPos (passiveValues.getD (passivePos + curPos) 0)) primal

/-- The source entity `PrimalValueBaseTape::statementEvaluateReverseFull`: first the layer
positions are moved, then
`CODI_ENABLE_CHECK(Config::SkipZeroAdjointEvaluation, !isTotalZero(lhsAdjoint))`
guards the passive-value copy and the call of `evalInner` (which updates
the adjoint vector).  `evalInner` is a parameter exactly as in the C++
template. -/
def statementEvaluateReverseFull
    (evalInner : List ℚ → List ℚ → ℚ → Nat → Nat → List ℚ)
    (maxActiveArgs maxConstantArgs : Nat)
    (lhsAdjoint : ℚ) (numberOfPassiveArguments : Nat)
    (passiveValues : List ℚ) (s : RevState) : RevState :=
  let constantPos := s.constantPos - maxConstantArgs
  let passivePos := s.passivePos - numberOfPassiveArguments
  let rhsPos := s.rhsPos - maxActiveArgs
  if !Config.SkipZeroAdjointEvaluation || !(isTotalZero lhsAdjoint) then
    let primal := writePassivesToPrimal s.primal passiveValues passivePos
      numberOfPassiveArguments
    let adj := evalInner primal s.adj lhsAdjoint constantPos rhsPos
    ⟨constantPos, passivePos, rhsPos, primal, adj⟩
  else
    ⟨constantPos, passivePos, rhsPos, s.primal, s.adj⟩

/-! ## The index manager and statement recording (`PrimalValueBaseTape::store`)

The index manager implementations are not part of the sources at hand
(only their call sites are), so they are modelled from the
specification. -/

/-- Modelled from the spec: the index manager (§4.2), reuse policy.  The
missing source is `indices/…IndexManager.hpp`.  `freeList` holds the
returned identifiers, `next` the next never-assigned identifier;
identifier `0` is the reserved passive sentinel. -/
structure IndexManager where
  freeList : List Nat
  next : Nat
deriving DecidableEq

/-- Modelled from the spec: `freeIndex` pushes a non-passive identifier
back to the free list and leaves the value passive (identifier `0`).
Returns the new manager state and the new value of the identifier. -/
def IndexManager.freeIndex (im : IndexManager) (id : Nat) : IndexManager × Nat :=
  if id ≠ 0 then ({ im with freeList := id :: im.freeList }, 0) else (im, 0)

/-- Modelled from the spec: `assignIndex` keeps an already valid
identifier, otherwise pops from the free list or grows.  Returns the
manager, the identifier and whether a never-used identifier was taken. -/
def IndexManager.assignIndex (im : IndexManager) (id : Nat) : IndexManager × Nat × Bool :=
  if id ≠ 0 then
    (im, id, false)
  else
    match im.freeList with
    | f :: rest => ({ im with freeList := rest }, f, false)
    | [] => ({ im with next := im.next + 1 }, im.next, true)

/-- One leaf of the right-hand side expression tree in traversal order:
an active leaf carries its identifier and value, a constant leaf only a
value (§6 of the spec fixes this interface shape). -/
inductive Leaf where
  | active (id : Nat) (value : ℚ)
  | constant (value : ℚ)
deriving DecidableEq

/-- The source entity `CountActiveArguments::handleActive`:
`CODI_ENABLE_CHECK(Config::CheckZeroIndex, 0 != node.getIdentifier())`
guards `numberOfActiveArguments += 1`; constant leaves are not visited. -/
def countActiveArguments (rhs : List Leaf) : Nat :=
  rhs.foldl
    (fun c l =>
      match l with
      | .active id _ => if !Config.CheckZeroIndex || id ≠ 0 then c + 1 else c
      | .constant _ => c)
    0

/-- The storage layers and recording state of the primal value tape that
`store` touches. -/
structure TapeState where
  statementData : List (Nat × Nat × ℚ)
  rhsIdentifierData : List Nat
  passiveValueData : List ℚ
  constantValueData : List ℚ
  indexManager : IndexManager
  primals : Nat → ℚ
  active : Bool

/-- The source entity `PushIdentfierPassiveAndConstant`: per active leaf, a passive
identifier is replaced by the running passive-argument slot number and
the value goes to the passive layer, otherwise the identifier goes to
the rhs-identifier layer; per constant leaf the value goes to the
constant layer.  Returns the three layers and the passive count. -/
def pushIdentifierPassiveAndConstant (rhs : List Leaf)
    (rhsIdentifierData : List Nat) (passiveValueData constantValueData : List ℚ) :
    List Nat × List ℚ × List ℚ × Nat :=
  rhs.foldl
    (fun acc l =>
      match l with
      | .active id v =>
          if !Config.CheckZeroIndex || id = 0 then
            (acc.1 ++ [acc.2.2.2], acc.2.1 ++ [v], acc.2.2.1, acc.2.2.2 + 1)
          else
            (acc.1 ++ [id], acc.2.1, acc.2.2.1, acc.2.2.2)
      | .constant v => (acc.1, acc.2.1, acc.2.2.1 ++ [v], acc.2.2.2))
    (rhsIdentifierData, passiveValueData, constantValueData, 0)

/-- The source entity `PrimalValueBaseTape::store(lhs, rhs)` (the expression overload).
`CODI_ENABLE_CHECK(Config::CheckTapeActivity, isActive())` guards the
recording; with zero contributing active arguments (or an inactive tape)
only `freeIndex` runs.  The statement record is modelled as
(output identifier, passive-argument count, old primal value); the
evaluator handle is opaque and omitted.  Returns the tape and the new
identifier of the left-hand side. -/
def store (tape : TapeState) (lhsId : Nat) (rhs : List Leaf) (rhsValue : ℚ) :
    TapeState × Nat :=
  if !Config.CheckTapeActivity || tape.active then
    let activeArguments := countActiveArguments rhs
    if activeArguments ≠ 0 then
      let pushed := pushIdentifierPassiveAndConstant rhs
        tape.rhsIdentifierData tape.passiveValueData tape.constantValueData
      let assigned := tape.indexManager.assignIndex lhsId
      let newId := assigned.2.1
      let oldPrimal := tape.primals newId
      ({ tape with
          statementData := tape.statementData ++ [(newId, pushed.2.2.2, oldPrimal)],
          rhsIdentifierData := pushed.1,
          passiveValueData := pushed.2.1,
          constantValueData := pushed.2.2.1,
          indexManager := assigned.1,
          primals := fun n => if n = newId then rhsValue else tape.primals n },
        newId)
    else
      let freed := tape.indexManager.freeIndex lhsId
      ({ tape with indexManager := freed.1 }, freed.2)
  else
    let freed := tape.indexManager.freeIndex lhsId
    ({ tape with indexManager := freed.1 }, freed.2)

/-! ## Preaccumulation (`PreaccumulationHelper::doPreaccumulation`) -/

/-- The nonzero entries of one Jacobian row, paired with their input
identifiers (`jacobie(curOut, curIn)` alongside `inputData[curIn]`). -/
def nzFilter (es : List (ℚ × Nat)) : List (ℚ × Nat) :=
  es.filter (fun e => decide (e.1 ≠ 0))

/-- Modelled from the spec: the per-row nonzero counter of
`JacobianCountNonZerosRow` (that class is not among the sources); the
spec describes "a per-row nonzero counter", so it equals the number of
nonzero entries of the row. -/
def countNZ (es : List (ℚ × Nat)) : Nat :=
  (nzFilter es).length

/-- The inner loop of `doPreaccumulation`:
`while(jacobiesForStatement > 0) { if(jacobie(curOut,curIn) != 0) { pushJacobiManual(...); jacobiesForStatement -= 1; } curIn += 1; }`.
Consumes row entries in order, skipping zero coefficients, until `j`
pairs are pushed; returns the pushed pairs and the remaining entries. -/
def pushPairs : List (ℚ × Nat) → Nat → List (ℚ × Nat) × List (ℚ × Nat)
  | es, 0 => ([], es)
  | [], _ + 1 => ([], [])
  | e :: es, j + 1 =>
      if e.1 = 0 then
        pushPairs es (j + 1)
      else
        let r := pushPairs es j
        (e :: r.1, r.2)

/-- One compact "manual" statement emitted by preaccumulation: the
output identifier assigned inside `storeManual`, the synthetic
staggering pair pushed by `pushJacobiManual(1.0, 0.0, storedIdentifier)`
when staggering is active, and the row-entry pairs. -/
structure ManualStmt where
  out : Nat
  synthetic : Option (ℚ × Nat)
  rowPairs : List (ℚ × Nat)
deriving DecidableEq

/-- The cap computation of `doPreaccumulation`:
`jacobiesForStatement = nonZerosLeft`, capped to `MaxArgumentSize - 1`
when `nonZerosLeft > MaxArgumentSize`, minus one more slot when
staggering is already active (the slot is used by the staggering
Jacobian). -/
def chainJ (maxArgs n : Nat) (stag : Bool) : Nat :=
  if n > maxArgs then maxArgs - 1 - (if stag then 1 else 0) else n

/-- The outer `while(nonZerosLeft > 0)` loop of `doPreaccumulation` for
one output row.  `n` is `nonZerosLeft`, `stag` the `staggeringActive`
flag, `lastId` the running `lastIdentifier` and `next` the identifier
handed out by `assignIndex` inside `storeManual` (modelled from the
spec, §4.2: the linear policy returns `next++`, so each call yields a
fresh identifier).  `fuel` bounds the recursion; `buildChain` passes
`n`, which suffices because each round pushes at least one pair.
Returns the emitted statements and the final `lastIdentifier`. -/
def buildChainF (maxArgs : Nat) :
    Nat → List (ℚ × Nat) → Nat → Bool → Nat → Nat → List ManualStmt × Nat
  | 0, _, _, _, lastId, _ => ([], lastId)
  | fuel + 1, es, n, stag, lastId, next =>
      if n = 0 then
        ([], lastId)
      else
        let j := chainJ maxArgs n stag
        let pr := pushPairs es j
        let st : ManualStmt :=
          ⟨next, if stag then some (1, lastId) else none, pr.1⟩
        let rec_ := buildChainF maxArgs fuel pr.2 (n - j) true next (next + 1)
        (st :: rec_.1, rec_.2)

/-- The statement chain for one output row: `nonZerosLeft` starts at the
row's nonzero count, `staggeringActive` at `false` and `lastIdentifier`
at the output's current identifier. -/
def buildChain (maxArgs : Nat) (es : List (ℚ × Nat)) (valueId next : Nat) :
    List ManualStmt × Nat :=
  buildChainF maxArgs (countNZ es) es (countNZ es) false valueId next

/-- The per-output branch of `doPreaccumulation`: a row with nonzero
entries is re-emitted as a statement chain and the output keeps the
final `lastIdentifier`; an all-zero row releases the output's identifier
through `destroyIdentifier` (that is, `freeIndex`) and emits nothing.
Returns the output's new identifier, the emitted statements and the
index manager. -/
def processOutput (maxArgs : Nat) (im : IndexManager) (row : List (ℚ × Nat))
    (valueId : Nat) : Nat × List ManualStmt × IndexManager :=
  if countNZ row ≠ 0 then
    let r := buildChain maxArgs row valueId im.next
    (r.2, r.1, { im with next := im.next + r.1.length })
  else
    let f := im.freeIndex valueId
    (f.2, [], f.1)

/-! ## Input adjoint save/restore (`PreaccumulationHelper::finish`) -/

/-- A pointwise update of the growable adjoint vector (`tape.gradient`
as an lvalue). -/
def updAdj (a : Nat → ℚ) (id : Nat) (v : ℚ) : Nat → ℚ :=
  fun k => if k = id then v else a k

/-- The source entity `PreaccumulationHelper::storeInputAdjoints`: for each declared input
identifier in order, save `tape.gradient(index)` into `storedAdjoints`
and zero the adjoint.  Returns `storedAdjoints` and the adjoint
vector. -/
def storeInputAdjoints : (Nat → ℚ) → List Nat → List ℚ × (Nat → ℚ)
  | adj, [] => ([], adj)
  | adj, id :: rest =>
      let v := adj id
      let r := storeInputAdjoints (updAdj adj id 0) rest
      (v :: r.1, r.2)

/-- The source entity `PreaccumulationHelper::restoreInputAdjoints`: for each declared
input identifier in order, write back the saved value. -/
def restoreInputAdjoints : (Nat → ℚ) → List Nat → List ℚ → (Nat → ℚ)
  | adj, [], _ => adj
  | adj, _, [] => adj
  | adj, id :: rest, v :: vs => restoreInputAdjoints (updAdj adj id v) rest vs

/-- The adjoint-vector effect of `PreaccumulationHelper::finish` on an
active tape: optionally save and zero the input adjoints, run the
preaccumulation (whose effect on the adjoint vector is the opaque
`doPre`), then restore the saved values. -/
def finishAdjoints (doPre : (Nat → ℚ) → (Nat → ℚ)) (adj : Nat → ℚ)
    (inputData : List Nat) (storeAdjoints : Bool) : Nat → ℚ :=
  if storeAdjoints then
    let r := storeInputAdjoints adj inputData
    restoreInputAdjoints (doPre r.2) inputData r.1
  else
    doPre adj

/-! ## The enumerated tape parameter set (`getParameter` / `setParameter`) -/

/-- The members of `TapeParameters` handled by
`PrimalValueBaseTape::getParameter` and inserted into `options` by the
tape constructor. -/
inductive TapeParameters where
  | AdjointSize
  | ConstantValuesSize
  | LargestIdentifier
  | PassiveValuesSize
  | RhsIdentifiersSize
  | PrimalSize
  | StatementSize
deriving DecidableEq

/-- The sizes `getParameter`/`setParameter` read and resize. -/
structure ParamState where
  adjointsSize : Nat
  constantValuesSize : Nat
  passiveValuesSize : Nat
  rhsIdentifiersSize : Nat
  primalsSize : Nat
  statementsSize : Nat
  largestAssignedIndex : Nat
deriving DecidableEq

/-- The source entity `PrimalValueBaseTape::getParameter`. -/
def getParameter (s : ParamState) : TapeParameters → Nat
  | .AdjointSize => s.adjointsSize
  | .ConstantValuesSize => s.constantValuesSize
  | .LargestIdentifier => s.largestAssignedIndex
  | .PassiveValuesSize => s.passiveValuesSize
  | .RhsIdentifiersSize => s.rhsIdentifiersSize
  | .PrimalSize => s.primalsSize
  | .StatementSize => s.statementsSize

/-- The source entity `PrimalValueBaseTape::setParameter`: every case resizes the matching
vector or data stream, except `LargestIdentifier`, which raises
`CODI_EXCEPTION("Tried to set a get only option.")`, modelled as
`Except.error`. -/
def setParameter (s : ParamState) (p : TapeParameters) (value : Nat) :
    Except String ParamState :=
  match p with
  | .AdjointSize => .ok { s with adjointsSize := value }
  | .ConstantValuesSize => .ok { s with constantValuesSize := value }
  | .LargestIdentifier => .error "Tried to set a get only option."
  | .PassiveValuesSize => .ok { s with passiveValuesSize := value }
  | .RhsIdentifiersSize => .ok { s with rhsIdentifiersSize := value }
  | .PrimalSize => .ok { s with primalsSize := value }
  | .StatementSize => .ok { s with statementsSize := value }

/-! ## Theorems -/

/-- C1: during reverse replay of a recorded statement, every stored
(coefficient, input-identifier) pair increments exactly the input's
adjoint slot by coefficient * outputAdjoint and leaves every other slot
unchanged; recording y = a*x1 + b*x2 with passive a, b (identifiers
x1 = 1, x2 = 2, y = 3), seeding adjoint(y) = 1 and reverse-evaluating
yields adjoint(x1) = a and adjoint(x2) = b. -/
theorem reverse_replay_accumulates :
    (∀ (adj : List ℚ) (index : Nat) (jacobi lhs : ℚ), index < adj.length →
      (updateJacobiAdjoint adj index jacobi lhs).getD index 0
          = adj.getD index 0 + jacobi * lhs
        ∧ ∀ k, k ≠ index →
            (updateJacobiAdjoint adj index jacobi lhs).getD k 0 = adj.getD k 0)
    ∧ ∀ a b : ℚ,
        evalStatementReverse [0, 0, 0, 1] 3 [(a, 1), (b, 2)] = [0, a, b, 1] := by
  constructor
  · intro adj index jacobi lhs h
    constructor
    · have hlen : index < (updateJacobiAdjoint adj index jacobi lhs).length := by
        simpa [updateJacobiAdjoint] using h
      rw [List.getD_eq_getElem _ _ hlen]
      simp [updateJacobiAdjoint]
    · intro k hk
      simp only [updateJacobiAdjoint, List.getD_eq_getD_get?, List.get?_eq_getElem?]
      rw [List.getElem?_set_ne (by omega)]
  · intro a b
    simp [evalStatementReverse, updateJacobiAdjoint, List.getD]

/-- Witness for C1 at a concrete bounded index. -/
theorem reverse_replay_accumulates_witness :
    (updateJacobiAdjoint [0, 5] 1 3 4).getD 1 0 = ([0, 5] : List ℚ).getD 1 0 + 3 * 4 :=
  (reverse_replay_accumulates.1 [0, 5] 1 3 4 (by decide)).1

/-- C5: with the invalid-Jacobian skip policy enabled, a stored pair with
a non-finite coefficient contributes no adjoint (reverse) nor tangent
(forward) update, leaving every accumulator exactly as if that pair were
absent; and the policy is disabled by default. -/
theorem invalid_jacobian_skipped :
    (∀ (adj : List PReal) (lhsAdjoint : PReal) (l1 l2 : List (PReal × Nat))
        (p : PReal × Nat), p.1.isTotalFinite = false →
          incrementReversalStatement true adj lhsAdjoint (l1 ++ p :: l2)
            = incrementReversalStatement true adj lhsAdjoint (l1 ++ l2))
    ∧ (∀ (vec : List PReal) (t : PReal) (l1 l2 : List (PReal × Nat))
        (p : PReal × Nat), p.1.isTotalFinite = false →
          incrementForwardStatement true vec t (l1 ++ p :: l2)
            = incrementForwardStatement true vec t (l1 ++ l2))
    ∧ Config.IgnoreInvalidJacobies = false := by
  refine ⟨?_, ?_, rfl⟩
  · intro adj lhsAdjoint l1 l2 p hp
    simp [incrementReversalStatement, List.foldl_append,
      handleJacobianOnActiveReverse, hp]
  · intro vec t l1 l2 p hp
    simp [incrementForwardStatement, List.foldl_append,
      handleJacobianOnActiveForward, hp]

/-- Witness for C5 with a concrete non-finite coefficient. -/
theorem invalid_jacobian_skipped_witness :
    incrementReversalStatement true [PReal.fin 2] (PReal.fin 1)
        ([] ++ (PReal.nonfin, 0) :: [(PReal.fin 3, 0)])
      = incrementReversalStatement true [PReal.fin 2] (PReal.fin 1)
        ([] ++ [(PReal.fin 3, 0)]) :=
  invalid_jacobian_skipped.1 [PReal.fin 2] (PReal.fin 1) [] [(PReal.fin 3, 0)]
    (PReal.nonfin, 0) rfl

/-- C7: the preaccumulation Jacobian block is row-major: for i < m and
j < n the accessors read and write the flat storage of size n * m at
index i * n + j, and consecutive elements of one row are contiguous. -/
theorem jacobian_row_major (jac : Jacobian) (i j : Nat)
    (hi : i < jac.m) (hj : j < jac.n) (hlen : jac.values.length = jac.n * jac.m) :
    jac.computeIndex i j = i * jac.n + j
    ∧ i * jac.n + j < jac.values.length
    ∧ jac.get i j = jac.values.getD (i * jac.n + j) 0
    ∧ (∀ v, (jac.write i j v).values = jac.values.set (i * jac.n + j) v)
    ∧ (j + 1 < jac.n → jac.computeIndex i (j + 1) = jac.computeIndex i j + 1) := by
  have hbound : i * jac.n + j < jac.values.length := by
    rw [hlen]
    calc i * jac.n + j < i * jac.n + jac.n := by omega
    _ = (i + 1) * jac.n := by ring
    _ ≤ jac.m * jac.n := Nat.mul_le_mul_right _ hi
    _ = jac.n * jac.m := Nat.mul_comm _ _
  exact ⟨rfl, hbound, rfl, fun _ => rfl, fun _ => by simp [Jacobian.computeIndex]; omega⟩

/-- Witness for C7 on a concrete 2 by 3 block. -/
theorem jacobian_row_major_witness :
    (Jacobian.init 2 3).computeIndex 1 2 = 1 * (Jacobian.init 2 3).n + 2
    ∧ 1 * (Jacobian.init 2 3).n + 2 < (Jacobian.init 2 3).values.length :=
  ⟨(jacobian_row_major (Jacobian.init 2 3) 1 2 (by decide) (by decide) (by decide)).1,
   (jacobian_row_major (Jacobian.init 2 3) 1 2 (by decide) (by decide) (by decide)).2.1⟩

/-- C10: at identifier = adjoints.size() the guard of the const gradient
overload (which tests identifier > size, not >=) takes the direct-access
branch and reads one past the end of the vector: on a fresh tape
(adjoints.size() = 1) the access at identifier 1 is out of bounds
(`none`), while identifiers above the size return the passive slot and
the non-const overload grows the vector and stays in bounds. -/
theorem gradient_const_boundary_out_of_bounds :
    gradientConst [5] 1 = none
    ∧ gradientConst [5] 2 = some 5
    ∧ gradientConst [5] 0 = some 5
    ∧ gradientMut [5] 1 1 = some 0 := by
  refine ⟨?_, ?_, ?_, ?_⟩ <;> rfl

/-- C4: when the output adjoint is totally zero and skipping is enabled
(the default), the reverse evaluation of one statement changes no entry
of the adjoint vector and no entry of the primal vector, and only moves
the traversal positions of the constant, passive and rhs-identifier
layers; this holds for every inner evaluation function. -/
theorem skip_zero_adjoint_frame
    (evalInner : List ℚ → List ℚ → ℚ → Nat → Nat → List ℚ)
    (maxActiveArgs maxConstantArgs numberOfPassiveArguments : Nat)
    (passiveValues : List ℚ) (lhsAdjoint : ℚ) (s : RevState)
    (hz : isTotalZero lhsAdjoint = true) :
    statementEvaluateReverseFull evalInner maxActiveArgs maxConstantArgs lhsAdjoint
        numberOfPassiveArguments passiveValues s
      = ⟨s.constantPos - maxConstantArgs, s.passivePos - numberOfPassiveArguments,
         s.rhsPos - maxActiveArgs, s.primal, s.adj⟩
    ∧ Config.SkipZeroAdjointEvaluation = true := by
  refine ⟨?_, rfl⟩
  simp [statementEvaluateReverseFull, Config.SkipZeroAdjointEvaluation, hz]

/-- Witness for C4: the inner evaluation would prepend 99 to the adjoint
vector, but the zero output adjoint skips it. -/
theorem skip_zero_adjoint_frame_witness :
    statementEvaluateReverseFull (fun _ a _ _ _ => 99 :: a) 1 1 0 1 [4]
        ⟨3, 2, 1, [7], [8]⟩
      = ⟨3 - 1, 2 - 1, 1 - 1, [7], [8]⟩
    ∧ Config.SkipZeroAdjointEvaluation = true :=
  skip_zero_adjoint_frame (fun _ a _ _ _ => 99 :: a) 1 1 1 [4] 0
    ⟨3, 2, 1, [7], [8]⟩ (by decide)

/-- C2: on an active tape, a statement whose right-hand side has zero
contributing active arguments is pruned by `store`: nothing is pushed
into the statement, rhs-identifier, passive-value or constant layers,
the primal vector is untouched, the previous output identifier is freed
to the index manager and the output is left with the passive
identifier 0. -/
theorem store_prunes_zero_active (tape : TapeState) (lhsId : Nat)
    (rhs : List Leaf) (rhsValue : ℚ)
    (hactive : tape.active = true) (hcount : countActiveArguments rhs = 0) :
    (store tape lhsId rhs rhsValue).1.statementData = tape.statementData
    ∧ (store tape lhsId rhs rhsValue).1.rhsIdentifierData = tape.rhsIdentifierData
    ∧ (store tape lhsId rhs rhsValue).1.passiveValueData = tape.passiveValueData
    ∧ (store tape lhsId rhs rhsValue).1.constantValueData = tape.constantValueData
    ∧ (store tape lhsId rhs rhsValue).1.primals = tape.primals
    ∧ (store tape lhsId rhs rhsValue).2 = 0
    ∧ (lhsId ≠ 0 →
        (store tape lhsId rhs rhsValue).1.indexManager.freeList
          = lhsId :: tape.indexManager.freeList) := by
  have hstore : store tape lhsId rhs rhsValue
      = ({ tape with indexManager := (tape.indexManager.freeIndex lhsId).1 },
         (tape.indexManager.freeIndex lhsId).2) := by
    simp [store, Config.CheckTapeActivity, hactive, hcount]
  by_cases h0 : lhsId = 0
  · subst h0
    simp [hstore, IndexManager.freeIndex]
  · simp [hstore, IndexManager.freeIndex, h0]

/-- Witness for C2: an active tape, right-hand side with one passive
leaf (identifier 0) and one constant, and a previous output
identifier 4. -/
theorem store_prunes_zero_active_witness :
    (store ⟨[], [], [], [], ⟨[], 1⟩, fun _ => 0, true⟩ 4
        [Leaf.active 0 2, Leaf.constant 3] 9).2 = 0
    ∧ (store ⟨[], [], [], [], ⟨[], 1⟩, fun _ => 0, true⟩ 4
        [Leaf.active 0 2, Leaf.constant 3] 9).1.indexManager.freeList = 4 :: [] := by
  have h := store_prunes_zero_active ⟨[], [], [], [], ⟨[], 1⟩, fun _ => 0, true⟩ 4
    [Leaf.active 0 2, Leaf.constant 3] 9 rfl (by decide)
  exact ⟨h.2.2.2.2.2.1, h.2.2.2.2.2.2 (by decide)⟩

/-- C8 counterexample: `setParameter` does not complete without error
for every member of the enumerated parameter set; on the
largest-assigned-identifier parameter it raises the get-only-option
error. -/
theorem setParameter_largestIdentifier_errors :
    setParameter ⟨1, 0, 0, 0, 0, 0, 0⟩ TapeParameters.LargestIdentifier 5
      = Except.error "Tried to set a get only option." := rfl

/-- C8 (amended): every member of the enumerated parameter set is
readable through `getParameter`; every member except the
largest-assigned-identifier parameter is settable through
`setParameter` (with the set value read back), while setting the
largest-assigned-identifier parameter raises the get-only-option
error. -/
theorem tape_parameters_get_set (s : ParamState) (p : TapeParameters) (v : Nat)
    (hp : p ≠ TapeParameters.LargestIdentifier) :
    (∃ s2, setParameter s p v = Except.ok s2 ∧ getParameter s2 p = v)
    ∧ setParameter s TapeParameters.LargestIdentifier v
        = Except.error "Tried to set a get only option."
    ∧ ∀ q : TapeParameters, ∃ r : Nat, getParameter s q = r := by
  refine ⟨?_, rfl, fun q => ⟨getParameter s q, rfl⟩⟩
  cases p
  case LargestIdentifier => exact absurd rfl hp
  all_goals exact ⟨_, rfl, rfl⟩

/-- Witness for C8 (amended) on the adjoint-size parameter. -/
theorem tape_parameters_get_set_witness :
    (∃ s2, setParameter ⟨1, 0, 0, 0, 0, 0, 0⟩ TapeParameters.AdjointSize 7
        = Except.ok s2 ∧ getParameter s2 TapeParameters.AdjointSize = 7)
    ∧ setParameter ⟨1, 0, 0, 0, 0, 0, 0⟩ TapeParameters.LargestIdentifier 7
        = Except.error "Tried to set a get only option."
    ∧ ∀ q : TapeParameters, ∃ r : Nat, getParameter ⟨1, 0, 0, 0, 0, 0, 0⟩ q = r :=
  tape_parameters_get_set ⟨1, 0, 0, 0, 0, 0, 0⟩ TapeParameters.AdjointSize 7 (by decide)

/-- Identifiers not mentioned in the input list are untouched by
`restoreInputAdjoints`. -/
theorem restoreInputAdjoints_untouched (inputs : List Nat) :
    ∀ (vs : List ℚ) (a : Nat → ℚ) (id : Nat), id ∉ inputs →
      restoreInputAdjoints a inputs vs id = a id := by
  induction inputs with
  | nil => intro vs a id _; cases vs <;> rfl
  | cons i0 rest ih =>
    intro vs a id hid
    cases vs with
    | nil => rfl
    | cons v vs =>
      have h1 : id ∉ rest := fun h => hid (List.mem_cons_of_mem _ h)
      have h2 : id ≠ i0 := fun h => hid (by simp [h])
      simp only [restoreInputAdjoints]
      rw [ih vs _ id h1]
      simp [updAdj, h2]

/-- Saving then restoring pairwise distinct input adjoints recovers the
original values, whatever happened to the adjoint vector in between. -/
theorem storeRestore_nodup (inputs : List Nat) : inputs.Nodup →
    ∀ (adj adjMid : Nat → ℚ) (id : Nat), id ∈ inputs →
      restoreInputAdjoints adjMid inputs (storeInputAdjoints adj inputs).1 id
        = adj id := by
  induction inputs with
  | nil => intro _ adj adjMid id h; exact absurd h (List.not_mem_nil id)
  | cons i0 rest ih =>
    intro hnd adj adjMid id hid
    have hnotmem : i0 ∉ rest := (List.nodup_cons.mp hnd).1
    have hndr : rest.Nodup := (List.nodup_cons.mp hnd).2
    simp only [storeInputAdjoints, restoreInputAdjoints]
    rcases List.mem_cons.mp hid with h | h
    · subst h
      rw [restoreInputAdjoints_untouched rest _ _ id hnotmem]
      simp [updAdj]
    · have hne : id ≠ i0 := fun he => hnotmem (he ▸ h)
      rw [ih hndr (updAdj adj i0 0) (updAdj adjMid i0 (adj i0)) id h]
      simp [updAdj, hne]

/-- C9 counterexample: with a duplicated input identifier the second
save iteration stores the already-zeroed adjoint, so `finish` with
storeAdjoints = true does not restore the pre-finish value (5 becomes
0) even when the preaccumulation itself leaves the adjoints alone. -/
theorem finish_restore_duplicate_counterexample :
    finishAdjoints (fun a => a) (fun k => if k = 1 then (5 : ℚ) else 0) [1, 1] true 1 = 0
    ∧ (fun k => if k = 1 then (5 : ℚ) else 0) 1 = 5 := by
  exact ⟨rfl, rfl⟩

/-- C9 (amended): for pairwise distinct declared input identifiers,
`finish` with storeAdjoints = true leaves the adjoint of every declared
input equal to its value immediately before the call, for every
behaviour of the internal preaccumulation on the adjoint vector. -/
theorem finish_restores_input_adjoints (doPre : (Nat → ℚ) → (Nat → ℚ))
    (adj : Nat → ℚ) (inputData : List Nat) (hnd : inputData.Nodup)
    (id : Nat) (hid : id ∈ inputData) :
    finishAdjoints doPre adj inputData true id = adj id := by
  simp only [finishAdjoints, if_true]
  exact storeRestore_nodup inputData hnd adj _ id hid

/-- Witness for C9 (amended): the preaccumulation shifts every adjoint
by one, yet the declared inputs come back unchanged. -/
theorem finish_restores_input_adjoints_witness :
    finishAdjoints (fun a k => a k + 1) (fun _ => (3 : ℚ)) [1, 2] true 1
      = (fun _ => (3 : ℚ)) 1 :=
  finish_restores_input_adjoints (fun a k => a k + 1) (fun _ => (3 : ℚ)) [1, 2]
    (by decide) 1 (by decide)

/-- The cap never exceeds the remaining nonzero count. -/
theorem chainJ_le (maxArgs n : Nat) (stag : Bool) : chainJ maxArgs n stag ≤ n := by
  unfold chainJ
  split
  · split <;> omega
  · omega

/-- With at least three operand slots, each round pushes a pair. -/
theorem chainJ_pos (maxArgs n : Nat) (stag : Bool) (hmax : 3 ≤ maxArgs) (hn : n ≠ 0) :
    1 ≤ chainJ maxArgs n stag := by
  unfold chainJ
  split
  · split <;> omega
  · omega

/-- With zero nonzeros left the loop emits nothing and keeps the last
identifier. -/
theorem buildChainF_n_zero (maxArgs fuel : Nat) (es : List (ℚ × Nat)) (stag : Bool)
    (lastId next : Nat) :
    buildChainF maxArgs fuel es 0 stag lastId next = ([], lastId) := by
  cases fuel <;> simp [buildChainF]

/-- One unfolding step of the chain builder. -/
theorem buildChainF_succ (maxArgs fuel : Nat) (es : List (ℚ × Nat)) (n : Nat)
    (stag : Bool) (lastId next : Nat) (hn : n ≠ 0) :
    buildChainF maxArgs (fuel + 1) es n stag lastId next
      = ((⟨next, if stag then some (1, lastId) else none,
            (pushPairs es (chainJ maxArgs n stag)).1⟩ : ManualStmt)
          :: (buildChainF maxArgs fuel (pushPairs es (chainJ maxArgs n stag)).2
              (n - chainJ maxArgs n stag) true next (next + 1)).1,
         (buildChainF maxArgs fuel (pushPairs es (chainJ maxArgs n stag)).2
            (n - chainJ maxArgs n stag) true next (next + 1)).2) := by
  simp [buildChainF, hn]

/-- The inner push loop takes the first `j` nonzero entries and leaves
the rest of the row. -/
theorem pushPairs_spec : ∀ (es : List (ℚ × Nat)) (j : Nat), j ≤ countNZ es →
    (pushPairs es j).1 = (nzFilter es).take j
    ∧ nzFilter (pushPairs es j).2 = (nzFilter es).drop j := by
  intro es
  induction es with
  | nil =>
    intro j hj
    have hj0 : j = 0 := Nat.le_zero.mp (by simpa [countNZ, nzFilter] using hj)
    subst hj0
    simp [pushPairs, nzFilter]
  | cons e es ih =>
    intro j hj
    cases j with
    | zero => simp [pushPairs]
    | succ j =>
      by_cases he : e.1 = 0
      · have hf : nzFilter (e :: es) = nzFilter es := by
          simp [nzFilter, List.filter_cons, he]
        have hps : pushPairs (e :: es) (j + 1) = pushPairs es (j + 1) := by
          simp [pushPairs, he]
        have hj2 : j + 1 ≤ countNZ es := by
          have hc : countNZ (e :: es) = countNZ es := by simp [countNZ, hf]
          omega
        rw [hps, hf]
        exact ih (j + 1) hj2
      · have hf : nzFilter (e :: es) = e :: nzFilter es := by
          simp [nzFilter, List.filter_cons, he]
        have hj2 : j ≤ countNZ es := by
          have hc : countNZ (e :: es) = countNZ es + 1 := by simp [countNZ, hf]
          omega
        have hr := ih j hj2
        constructor
        · show (pushPairs (e :: es) (j + 1)).1 = (nzFilter (e :: es)).take (j + 1)
          simp [pushPairs, he, hf, List.take_succ_cons, hr.1]
        · show nzFilter (pushPairs (e :: es) (j + 1)).2 = (nzFilter (e :: es)).drop (j + 1)
          simp [pushPairs, he, hf, List.drop_succ_cons, hr.2]

/-- The nonzeros remaining after one round. -/
theorem pushPairs_countNZ (es : List (ℚ × Nat)) (j : Nat) (hj : j ≤ countNZ es) :
    countNZ (pushPairs es j).2 = countNZ es - j := by
  have h := (pushPairs_spec es j hj).2
  rw [countNZ, h, List.length_drop]
  rfl

/-- The number of pairs pushed in one round. -/
theorem pushPairs_length (es : List (ℚ × Nat)) (j : Nat) (hj : j ≤ countNZ es) :
    (pushPairs es j).1.length = j := by
  have h := (pushPairs_spec es j hj).1
  rw [h, List.length_take]
  exact Nat.min_eq_left hj

/-- The row pairs emitted over a whole chain are exactly the nonzero
entries of the row. -/
theorem buildChainF_flatten (maxArgs : Nat) (hmax : 3 ≤ maxArgs) :
    ∀ (fuel : Nat) (es : List (ℚ × Nat)) (stag : Bool) (lastId next : Nat),
      countNZ es ≤ fuel →
        ((buildChainF maxArgs fuel es (countNZ es) stag lastId next).1.map
            ManualStmt.rowPairs).flatten = nzFilter es := by
  intro fuel
  induction fuel with
  | zero =>
    intro es stag lastId next hle
    have h0 : nzFilter es = [] := List.length_eq_zero.mp (Nat.le_zero.mp hle)
    simp [buildChainF, h0]
  | succ fuel ih =>
    intro es stag lastId next hle
    by_cases hn : countNZ es = 0
    · have h0 : nzFilter es = [] := List.length_eq_zero.mp hn
      rw [hn, buildChainF_n_zero]
      simp [h0]
    · rw [buildChainF_succ maxArgs fuel es (countNZ es) stag lastId next hn]
      have hjle := chainJ_le maxArgs (countNZ es) stag
      have hjpos := chainJ_pos maxArgs (countNZ es) stag hmax hn
      have hcr := pushPairs_countNZ es (chainJ maxArgs (countNZ es) stag) hjle
      have hrec := ih (pushPairs es (chainJ maxArgs (countNZ es) stag)).2 true next
        (next + 1) (by omega)
      rw [hcr] at hrec
      simp only [List.map_cons, List.flatten_cons]
      rw [hrec, (pushPairs_spec es (chainJ maxArgs (countNZ es) stag) hjle).1,
        (pushPairs_spec es (chainJ maxArgs (countNZ es) stag) hjle).2,
        List.take_append_drop]

/-- The output identifiers and staggering pairs of the chain: the k-th
statement is assigned the k-th fresh identifier, the first statement
carries the incoming staggering state and every later statement carries
the synthetic pair (1, previous fresh identifier). -/
theorem buildChainF_get (maxArgs : Nat) :
    ∀ (fuel : Nat) (es : List (ℚ × Nat)) (n : Nat) (stag : Bool)
      (lastId next k : Nat) (st : ManualStmt),
      ((buildChainF maxArgs fuel es n stag lastId next).1)[k]? = some st →
        st.out = next + k
        ∧ st.synthetic = (if k = 0 then (if stag then some (1, lastId) else none)
            else some (1, next + k - 1)) := by
  intro fuel
  induction fuel with
  | zero =>
    intro es n stag lastId next k st h
    simp [buildChainF] at h
  | succ fuel ih =>
    intro es n stag lastId next k st h
    by_cases hn : n = 0
    · rw [hn, buildChainF_n_zero] at h
      simp at h
    · rw [buildChainF_succ maxArgs fuel es n stag lastId next hn] at h
      cases k with
      | zero =>
        simp only [List.getElem?_cons_zero, Option.some.injEq] at h
        subst h
        simp
      | succ k =>
        simp only [List.getElem?_cons_succ] at h
        have hr := ih _ _ _ _ _ k st h
        refine ⟨by rw [hr.1]; omega, ?_⟩
        rw [hr.2]
        rcases Nat.eq_zero_or_pos k with hk | hk
        · subst hk; simp
        · have hk0 : k ≠ 0 := by omega
          have harith : next + 1 + k - 1 = next + (k + 1) - 1 := by omega
          simp only [hk0, if_false, Nat.succ_ne_zero, harith]

/-- Every chain statement that has a successor was capped: it carries
`maxArgs - 1` row pairs, one fewer when staggering was already active
for it. -/
theorem buildChainF_capped (maxArgs : Nat) (hmax : 3 ≤ maxArgs) :
    ∀ (fuel : Nat) (es : List (ℚ × Nat)) (stag : Bool) (lastId next k : Nat)
      (st : ManualStmt),
      countNZ es ≤ fuel →
      ((buildChainF maxArgs fuel es (countNZ es) stag lastId next).1)[k]? = some st →
      k + 1 < (buildChainF maxArgs fuel es (countNZ es) stag lastId next).1.length →
        st.rowPairs.length = maxArgs - 1 - (if k = 0 ∧ stag = false then 0 else 1) := by
  intro fuel
  induction fuel with
  | zero =>
    intro es stag lastId next k st hle h hlt
    simp [buildChainF] at h
  | succ fuel ih =>
    intro es stag lastId next k st hle h hlt
    by_cases hn : countNZ es = 0
    · rw [hn, buildChainF_n_zero] at h
      simp at h
    · rw [buildChainF_succ maxArgs fuel es (countNZ es) stag lastId next hn] at h hlt
      have hjle := chainJ_le maxArgs (countNZ es) stag
      have hjpos := chainJ_pos maxArgs (countNZ es) stag hmax hn
      have hcr := pushPairs_countNZ es (chainJ maxArgs (countNZ es) stag) hjle
      cases k with
      | zero =>
        simp only [List.getElem?_cons_zero, Option.some.injEq] at h
        subst h
        simp only [List.length_cons] at hlt
        have htail : (buildChainF maxArgs fuel
            (pushPairs es (chainJ maxArgs (countNZ es) stag)).2
            (countNZ es - chainJ maxArgs (countNZ es) stag) true next (next + 1)).1
              ≠ [] := by
          intro hnil
          rw [hnil] at hlt
          simp at hlt
        have hcap : countNZ es > maxArgs := by
          by_contra hcap
          have hjn : chainJ maxArgs (countNZ es) stag = countNZ es := by
            unfold chainJ
            rw [if_neg (by omega)]
          rw [hjn, Nat.sub_self, buildChainF_n_zero] at htail
          exact htail rfl
        have hjval : chainJ maxArgs (countNZ es) stag
            = maxArgs - 1 - (if stag then 1 else 0) := by
          unfold chainJ
          rw [if_pos hcap]
        have hlen := pushPairs_length es (chainJ maxArgs (countNZ es) stag) hjle
        cases stag with
        | false => rw [hlen, hjval]; simp
        | true => rw [hlen, hjval]; simp
      | succ k =>
        simp only [List.getElem?_cons_succ] at h
        simp only [List.length_cons] at hlt
        rw [← hcr] at h hlt
        have hrec := ih (pushPairs es (chainJ maxArgs (countNZ es) stag)).2 true next
          (next + 1) k st (by omega) h (by omega)
        rw [hrec]
        simp

/-- A nonzero row yields a nonempty chain whose final identifier is at
least the first fresh identifier. -/
theorem buildChainF_final (maxArgs : Nat) (hmax : 3 ≤ maxArgs) :
    ∀ (fuel : Nat) (es : List (ℚ × Nat)) (stag : Bool) (lastId next : Nat),
      countNZ es ≤ fuel → countNZ es ≠ 0 →
        next ≤ (buildChainF maxArgs fuel es (countNZ es) stag lastId next).2
        ∧ (buildChainF maxArgs fuel es (countNZ es) stag lastId next).1 ≠ [] := by
  intro fuel
  induction fuel with
  | zero =>
    intro es stag lastId next hle hn
    omega
  | succ fuel ih =>
    intro es stag lastId next hle hn
    rw [buildChainF_succ maxArgs fuel es (countNZ es) stag lastId next hn]
    refine ⟨?_, by simp⟩
    have hjle := chainJ_le maxArgs (countNZ es) stag
    have hjpos := chainJ_pos maxArgs (countNZ es) stag hmax hn
    have hcr := pushPairs_countNZ es (chainJ maxArgs (countNZ es) stag) hjle
    by_cases hz : countNZ es - chainJ maxArgs (countNZ es) stag = 0
    · rw [hz, buildChainF_n_zero]
    · have hrec := ih (pushPairs es (chainJ maxArgs (countNZ es) stag)).2 true next
        (next + 1) (by omega) (by omega)
      rw [hcr] at hrec
      omega

/-- C3: for a row with more nonzeros than one statement can carry,
`doPreaccumulation` emits a chain in which every statement after the
first starts with the synthetic pair (1, identifier of the previous
partial output), every statement with a successor (a capped statement)
carries MaxArgumentSize - 1 row pairs (one fewer once staggering is
active, i.e. from the second statement on), and the row pairs emitted
over the whole chain are exactly the nonzero entries of the row. -/
theorem preaccumulation_stagger_chain (es : List (ℚ × Nat)) (valueId next : Nat) :
    (∀ k st st2,
        (buildChain Config.MaxArgumentSize es valueId next).1[k]? = some st →
        (buildChain Config.MaxArgumentSize es valueId next).1[k + 1]? = some st2 →
          st2.synthetic = some (1, st.out))
    ∧ (∀ st, (buildChain Config.MaxArgumentSize es valueId next).1[0]? = some st →
        st.synthetic = none)
    ∧ (∀ k st, (buildChain Config.MaxArgumentSize es valueId next).1[k]? = some st →
        k + 1 < (buildChain Config.MaxArgumentSize es valueId next).1.length →
          st.rowPairs.length = Config.MaxArgumentSize - 1 - (if k = 0 then 0 else 1))
    ∧ ((buildChain Config.MaxArgumentSize es valueId next).1.map
          ManualStmt.rowPairs).flatten = nzFilter es := by
  refine ⟨?_, ?_, ?_, ?_⟩
  · intro k st st2 h h2
    have hst := buildChainF_get Config.MaxArgumentSize (countNZ es) es (countNZ es)
      false valueId next k st h
    have hst2 := buildChainF_get Config.MaxArgumentSize (countNZ es) es (countNZ es)
      false valueId next (k + 1) st2 h2
    rw [hst2.2, hst.1]
    simp
  · intro st h
    have hst := buildChainF_get Config.MaxArgumentSize (countNZ es) es (countNZ es)
      false valueId next 0 st h
    simpa using hst.2
  · intro k st h hlt
    have hc := buildChainF_capped Config.MaxArgumentSize (by decide) (countNZ es) es
      false valueId next k st (le_refl _) h hlt
    rw [hc]
    rcases Nat.eq_zero_or_pos k with hk | hk
    · subst hk; simp
    · have hk0 : k ≠ 0 := by omega
      simp [hk0]
  · exact buildChainF_flatten Config.MaxArgumentSize (by decide) (countNZ es) es
      false valueId next (le_refl _)

/-- Witness for C3 on a concrete one-entry row. -/
theorem preaccumulation_stagger_chain_witness :
    ((buildChain Config.MaxArgumentSize [((2 : ℚ), 5)] 9 7).1.map
        ManualStmt.rowPairs).flatten = nzFilter [((2 : ℚ), 5)]
    ∧ (⟨7, none, [((2 : ℚ), 5)]⟩ : ManualStmt).synthetic = none :=
  ⟨(preaccumulation_stagger_chain [((2 : ℚ), 5)] 9 7).2.2.2,
   (preaccumulation_stagger_chain [((2 : ℚ), 5)] 9 7).2.1 ⟨7, none, [((2 : ℚ), 5)]⟩
     (by decide)⟩

/-- C6: at the end of preaccumulation an output with an all-zero row is
made passive via `destroyIdentifier` (its identifier becomes 0, released
into the free list) with no statement emitted, while an output with a
nonzero row entry is re-emitted and ends with a valid nonzero
identifier. -/
theorem preaccumulation_zero_row (im : IndexManager) (row : List (ℚ × Nat))
    (valueId : Nat) (hnext : 1 ≤ im.next) :
    (countNZ row = 0 →
        processOutput Config.MaxArgumentSize im row valueId
          = (0, [], (im.freeIndex valueId).1))
    ∧ (countNZ row ≠ 0 →
        (processOutput Config.MaxArgumentSize im row valueId).1 ≠ 0
        ∧ (processOutput Config.MaxArgumentSize im row valueId).2.1 ≠ []) := by
  constructor
  · intro h
    have hsnd : (im.freeIndex valueId).2 = 0 := by
      unfold IndexManager.freeIndex
      split <;> rfl
    simp [processOutput, h, hsnd]
  · intro h
    obtain ⟨hf1, hf2⟩ := buildChainF_final Config.MaxArgumentSize (by decide)
      (countNZ row) row false valueId im.next (le_refl _) h
    constructor
    · simp only [processOutput, buildChain, h, ne_eq, if_true, not_false_eq_true,
        if_pos]
      omega
    · simp only [processOutput, buildChain, h, ne_eq, if_true, not_false_eq_true,
        if_pos]
      exact hf2

/-- Witness for C6: a zero row and a one-entry row on a fresh manager. -/
theorem preaccumulation_zero_row_witness :
    (processOutput Config.MaxArgumentSize ⟨[], 1⟩ [((0 : ℚ), 5)] 4
        = (0, [], ((⟨[], 1⟩ : IndexManager).freeIndex 4).1))
    ∧ (processOutput Config.MaxArgumentSize ⟨[], 1⟩ [((2 : ℚ), 5)] 4).1 ≠ 0 :=
  ⟨(preaccumulation_zero_row ⟨[], 1⟩ [((0 : ℚ), 5)] 4 (by decide)).1 (by decide),
   ((preaccumulation_zero_row ⟨[], 1⟩ [((2 : ℚ), 5)] 4 (by decide)).2 (by decide)).1⟩

end CodiSpec
